import Mathlib

/-
Verification of the ZMK physical-layout converter core (src/app.py).

Numbers are modelled as exact rationals (the source uses Python floats, but
every claim concerns values with at most two fractional digits, where the
float computations coincide with exact arithmetic).  Strings are Lean
`String`s; Python `str.lstrip`/`str.rstrip` with a single-character set and
`int(...)` parsing are modelled on the underlying character lists.
-/

namespace ZmkConv

/-- One decimal digit rendered as a character, as Python `str` renders integers. -/
def digitChar (d : ℕ) : Char :=
  match d with
  | 0 => '0' | 1 => '1' | 2 => '2' | 3 => '3' | 4 => '4'
  | 5 => '5' | 6 => '6' | 7 => '7' | 8 => '8' | 9 => '9'
  | _ => '*'

/-- Numeric value of a decimal digit character, `none` for non-digits. -/
def digitVal (c : Char) : Option ℕ :=
  if '0' ≤ c ∧ c ≤ '9' then some (c.toNat - 48) else none

/-- Little-endian decimal digits of `n`, with explicit structural fuel so the
kernel can evaluate it; agrees with `Nat.digits 10` when `n ≤ fuel`. -/
def natDigitsRev (fuel n : ℕ) : List ℕ :=
  match fuel, n with
  | 0, _ => []
  | _ + 1, 0 => []
  | fuel + 1, n + 1 => (n + 1) % 10 :: natDigitsRev fuel ((n + 1) / 10)

/-- Python `str` on a natural number. -/
def natToStr (n : ℕ) : String :=
  if n = 0 then "0" else String.mk ((natDigitsRev n n).reverse.map digitChar)

/-- Python `str` on an integer (minus sign for negatives). -/
def intToStr (k : ℤ) : String :=
  if k < 0 then "-" ++ natToStr k.natAbs else natToStr k.natAbs

/-- All-or-nothing map over a list, modelling a Python comprehension in which
any element may raise. -/
def mapOpt (f : α → Option β) : List α → Option (List β)
  | [] => some []
  | a :: l =>
    match f a, mapOpt f l with
    | some b, some bs => some (b :: bs)
    | _, _ => none

/-- Python `int(s)` on a string of decimal digits (no sign); fails on empty
input or any non-digit character. -/
def parseDigits (l : List Char) : Option ℕ :=
  match mapOpt digitVal l with
  | none => none
  | some ds => if ds = [] then none else some (ds.foldl (fun a d => 10 * a + d) 0)

/-- Python `int(s)`: an optional sign followed by decimal digits. -/
def parseInt (l : List Char) : Option ℤ :=
  match l with
  | [] => none
  | c :: rest =>
    if c = '-' then
      match parseDigits rest with
      | none => none
      | some n => some (-(n : ℤ))
    else if c = '+' then
      match parseDigits rest with
      | none => none
      | some n => some ((n : ℤ))
    else
      match parseDigits (c :: rest) with
      | none => none
      | some n => some ((n : ℤ))

/-- Python `s.lstrip(c)` for a single-character set: drops every leading `c`. -/
def lstripChars (c : Char) (l : List Char) : List Char :=
  l.dropWhile (fun a => a = c)

/-- Python `s.rstrip(c)` for a single-character set: drops every trailing `c`. -/
def rstripChars (c : Char) (l : List Char) : List Char :=
  (l.reverse.dropWhile (fun a => a = c)).reverse

/-- Python `round` on a rational: round to nearest, ties to even
(banker's rounding), as used by `num_to_str` in `layouts_to_dts`. -/
def pyRound (q : ℚ) : ℤ :=
  if q - ⌊q⌋ < 1/2 then ⌊q⌋
  else if 1/2 < q - ⌊q⌋ then ⌊q⌋ + 1
  else if ⌊q⌋ % 2 = 0 then ⌊q⌋ else ⌊q⌋ + 1

/-- Modelled from the spec: "round half away from zero" — ties round outward
(the rounding rule the spec attributes to the fixed-point encoder). -/
def roundHalfAwayFromZero (q : ℚ) : ℤ :=
  if 0 ≤ q then ⌊q + 1/2⌋ else -⌊-q + 1/2⌋

/-- `num_to_str` from `layouts_to_dts` (src/app.py:164-167): plain rounded
digits when the input is non-negative, parenthesized otherwise. -/
def num_to_str (num : ℚ) : String :=
  if 0 ≤ num then intToStr (pyRound num)
  else "(" ++ intToStr (pyRound num) ++ ")"

/-- The fixed-point decode step inside `parse_binding_params`
(src/app.py:110): `int(v.lstrip("(").rstrip(")")) / 100`. -/
def parse_binding_num (s : String) : Option ℚ :=
  match parseInt (rstripChars ')' (lstripChars '(' s.data)) with
  | none => none
  | some k => some ((k : ℚ) / 100)

/-- A rational representable with at most two fractional digits. -/
def twoDec (q : ℚ) : Prop := ∃ k : ℤ, q = (k : ℚ) / 100

end ZmkConv

namespace ZmkConv

/-! ### Data model

`Key`/`QmkLayout` model keymap-drawer's pydantic `QmkLayout` key model as the
spec documents it (x, y required; w, h default 1; r default 0; rx, ry
optional).  `KeyDict` models a JSON key object: which fields are present and
with what value; with pydantic's `exclude_defaults`/`exclude_unset` dump a
field is emitted exactly when it is present with a non-default value, so a
value-level model (fields at defaults are omitted on encode) is faithful. -/

structure Key where
  x : ℚ
  y : ℚ
  w : ℚ
  h : ℚ
  r : ℚ
  rx : Option ℚ
  ry : Option ℚ
deriving DecidableEq

structure QmkLayout where
  layout : List Key
deriving DecidableEq

structure KeyDict where
  x : ℚ
  y : ℚ
  w : Option ℚ
  h : Option ℚ
  r : Option ℚ
  rx : Option ℚ
  ry : Option ℚ
deriving DecidableEq

/-- Pydantic construction of a `Key` from a JSON key object: absent fields
take their defaults. -/
def dictToKey (d : KeyDict) : Key :=
  ⟨d.x, d.y, d.w.getD 1, d.h.getD 1, d.r.getD 0, d.rx, d.ry⟩

/-- `model_dump(exclude_defaults=True, exclude_unset=True)` on a `Key`
(src/app.py:155): only non-default fields are emitted. -/
def keyToDict (k : Key) : KeyDict :=
  ⟨k.x, k.y, if k.w = 1 then none else some k.w, if k.h = 1 then none else some k.h,
   if k.r = 0 then none else some k.r, k.rx, k.ry⟩

/-- Minimum of a nonempty collection, as Python `min` over a generator. -/
def listMin (a : ℚ) (l : List ℚ) : ℚ := l.foldl min a

/-- The coordinate shift applied by `_normalize_layout` to a single key. -/
def shiftKey (mx my : ℚ) (k : Key) : Key :=
  { k with
    x := k.x - mx
    y := k.y - my
    rx := k.rx.map (fun v => v - mx)
    ry := k.ry.map (fun v => v - my) }

/-- `_normalize_layout` (src/app.py:74-83): subtract the minimum x from every
x and present rx, the minimum y from every y and present ry.  Python `min`
raises on an empty layout, modelled as `none`. -/
def normalize_layout (l : QmkLayout) : Option QmkLayout :=
  match l.layout with
  | [] => none
  | k :: ks =>
    let mx := listMin k.x (ks.map Key.x)
    let my := listMin k.y (ks.map Key.y)
    some ⟨(k :: ks).map (shiftKey mx my)⟩

/-- Per-entry normalization of a layout map, the "normalize" of the
round-trip property (each member of the set passed through the Normalizer). -/
def normalizeSet (m : List (String × QmkLayout)) : Option (List (String × QmkLayout)) :=
  mapOpt (fun e => (normalize_layout e.2).map (fun l => (e.1, l))) m

/-! ### JSON codec

`qmk_json_to_layouts` consumes `json.loads` output, modelled structurally:
either a bare array of key objects or an object with a `"layouts"` mapping
(`json.loads` yields unique keys, so the mapping is a list of entries with
distinct names). -/

inductive QmkJson where
  | list : List KeyDict → QmkJson
  | layouts : List (String × List KeyDict) → QmkJson

/-- `qmk_json_to_layouts` (src/app.py:197-203): the bare-list shorthand
becomes a single "Default" entry WITHOUT normalization; the `"layouts"`
mapping branch normalizes every member. -/
def qmk_json_to_layouts (j : QmkJson) : Option (List (String × QmkLayout)) :=
  match j with
  | .list ks => some [("Default", ⟨ks.map dictToKey⟩)]
  | .layouts es =>
    mapOpt (fun e => (normalize_layout ⟨e.2.map dictToKey⟩).map (fun l => (e.1, l))) es

/-- `layouts_to_json` (src/app.py:152-158): emit a `"layouts"` mapping whose
key objects carry only the non-default fields. -/
def layouts_to_json (m : List (String × QmkLayout)) : QmkJson :=
  .layouts (m.map (fun e => (e.1, e.2.layout.map keyToDict)))

end ZmkConv

namespace ZmkConv

/-! ### DTS codec

The devicetree text layer is handled by an external parser
(`keymap_drawer.parse.dts.DeviceTree`); the codec consumes it through node
queries only.  A physical-layout node is modelled by its `display-name`
string and `keys` phandle array; each array entry is the whitespace-split
token list of a binding (`binding_arr.split()` — the emitted tokens contain
no whitespace, so splitting recovers exactly the tokens). -/

structure DtsNode where
  display_name : Option String
  keys : Option (List (List String))
deriving DecidableEq

/-- A parsed DTS input: the nodes compatible with "zmk,physical-layout", and
the root node's own `keys` phandle array if any (the fallback source). -/
structure DtsInput where
  nodes : List DtsNode
  root_keys : Option (List (List String))
deriving DecidableEq

/-- One step of Python dict construction: bind a key to a value, replacing
the value in place if the key is already bound, appending otherwise. -/
def pyDictInsert [DecidableEq α] (d : List (α × β)) (kv : α × β) : List (α × β) :=
  match d with
  | [] => [kv]
  | p :: rest => if p.1 = kv.1 then kv :: rest else p :: pyDictInsert rest kv

/-- Python dict built from a sequence of key-value pairs (later bindings of
the same key overwrite earlier ones, keeping the first-insertion position). -/
def pyDictOf [DecidableEq α] (l : List (α × β)) : List (α × β) :=
  l.foldl pyDictInsert []

structure KeyParams where
  w : Option ℚ
  h : Option ℚ
  x : Option ℚ
  y : Option ℚ
  r : Option ℚ
  rx : Option ℚ
  ry : Option ℚ
deriving DecidableEq

/-- Positional field of `dict(zip(("w","h","x","y","r","rx","ry"), bindings))`
with the fixed-point decode applied: `some none` when the position is beyond
the binding's length (the zip truncates), `none` when `int()` raises. -/
def parsePos (bs : List String) (i : ℕ) : Option (Option ℚ) :=
  match bs.get? i with
  | none => some none
  | some s => (parse_binding_num s).map some

/-- `parse_binding_params` (src/app.py:108-114): zip the seven attribute
names with the binding's argument tokens (truncating at the shorter), decode
each token, then — `params["r"]` raising `KeyError` if `r` is absent — drop
`rx`/`ry` when `r == 0` (`del` raising `KeyError` if they are absent). -/
def parse_binding_params (bs : List String) : Option KeyParams :=
  (parsePos bs 0).bind fun w =>
  (parsePos bs 1).bind fun h =>
  (parsePos bs 2).bind fun x =>
  (parsePos bs 3).bind fun y =>
  (parsePos bs 4).bind fun r =>
  (parsePos bs 5).bind fun rx =>
  (parsePos bs 6).bind fun ry =>
  r.bind fun rv =>
  if rv = 0 then
    rx.bind fun _ => ry.bind fun _ => some ⟨w, h, x, y, some rv, none, none⟩
  else some ⟨w, h, x, y, some rv, rx, ry⟩

/-- Pydantic construction of a `Key` from a decoded params dict inside
`QmkLayout(layout=keys)` (src/app.py:134): `x` and `y` are required. -/
def paramsToKey (p : KeyParams) : Option Key :=
  match p.x, p.y with
  | some x, some y => some ⟨x, y, p.w.getD 1, p.h.getD 1, p.r.getD 0, p.rx, p.ry⟩
  | _, _ => none

/-- One `keys` array entry of `dts_to_layouts` (src/app.py:130-133): split
off the leading reference tag, strip its `&` markers, require the
`key_physical_attrs` binding kind, and decode the argument tokens. -/
def binding_to_key (b : List String) : Option Key :=
  match b with
  | [] => none
  | tag :: args =>
    if String.mk (lstripChars '&' tag.data) = "key_physical_attrs" then
      (parse_binding_params args).bind paramsToKey
    else none

/-- One entry of the `defined_layouts` mapping turned into an output entry
(src/app.py:126-134): require a display name and a keys array, decode every
binding, and normalize the resulting layout. -/
def layoutEntry (e : Option String × Option (List (List String))) :
    Option (String × QmkLayout) :=
  match e.1, e.2 with
  | some name, some bindings =>
    (mapOpt binding_to_key bindings).bind
      (fun keys => (normalize_layout ⟨keys⟩).map (fun l => (name, l)))
  | _, _ => none

/-- `dts_to_layouts` (src/app.py:104-135) over a parsed tree: build
`defined_layouts` from the compatible nodes (a dict, so same-named nodes
overwrite), else fall back to the root `keys` array under the name
"Default", else fail; then decode and normalize every entry. -/
def dts_to_layouts (inp : DtsInput) : Option (List (String × QmkLayout)) :=
  (if inp.nodes ≠ [] then
      some (pyDictOf (inp.nodes.map (fun n => (n.display_name, n.keys))))
    else
      match inp.root_keys with
      | some ks => if ks = [] then none else some [(some "Default", some ks)]
      | none => none).bind (mapOpt layoutEntry)

/-- The binding invocation emitted for one key by `layouts_to_dts`
(src/app.py:172-181), as its whitespace-split token list: seven fixed-point
tokens in the order w, h, x, y, r, rx, ry, with absent rx/ry encoded as 0
(`key.rx or 0`). -/
def encodeKeyBinding (k : Key) : List String :=
  ["&key_physical_attrs",
   num_to_str (100 * k.w), num_to_str (100 * k.h),
   num_to_str (100 * k.x), num_to_str (100 * k.y),
   num_to_str (100 * k.r),
   num_to_str (100 * k.rx.getD 0), num_to_str (100 * k.ry.getD 0)]

/-- `layouts_to_dts` (src/app.py:161-186) at the node level: one
physical-layout node per map entry, with the entry's name as `display-name`
and one binding per key. -/
def layouts_to_dts (m : List (String × QmkLayout)) : List DtsNode :=
  m.map (fun e => ⟨some e.1, some (e.2.layout.map encodeKeyBinding)⟩)

end ZmkConv

namespace ZmkConv

/-- Python dict lookup on the association-list model. -/
def dictGet [DecidableEq α] (d : List (α × β)) (k : α) : Option β :=
  match d with
  | [] => none
  | p :: rest => if p.1 = k then some p.2 else dictGet rest k

/-- All numeric fields of a key are representable with two fractional digits
(the claim's "coordinates representable with 2 decimal digits"). -/
def goodKey (k : Key) : Prop :=
  twoDec k.x ∧ twoDec k.y ∧ twoDec k.w ∧ twoDec k.h ∧ twoDec k.r ∧
  (∀ v, k.rx = some v → twoDec v) ∧ (∀ v, k.ry = some v → twoDec v)

/-- The rotation-origin fields are present exactly when the rotation is
non-zero (the invariant under which the DTS round trip is exact). -/
def presKey (k : Key) : Prop :=
  (k.r = 0 → k.rx = none ∧ k.ry = none) ∧ (k.r ≠ 0 → k.rx ≠ none ∧ k.ry ≠ none)

end ZmkConv

namespace ZmkConv

/-! ### Decimal rendering / parsing round trip -/

theorem digitVal_digitChar : ∀ d, d < 10 → digitVal (digitChar d) = some d := by decide

theorem digitChar_ne : ∀ d, d < 10 →
    digitChar d ≠ '(' ∧ digitChar d ≠ ')' ∧ digitChar d ≠ '-' ∧ digitChar d ≠ '+' ∧
    digitChar d ≠ '&' := by decide

theorem natDigitsRev_eq_digits : ∀ fuel n, n ≤ fuel → natDigitsRev fuel n = Nat.digits 10 n := by
  intro fuel
  induction fuel with
  | zero =>
    intro n hn
    interval_cases n
    simp [natDigitsRev]
  | succ fuel ih =>
    intro n hn
    match n with
    | 0 => simp [natDigitsRev]
    | n + 1 =>
      rw [natDigitsRev, Nat.digits_def' (by norm_num : (1:ℕ) < 10) (Nat.succ_pos n)]
      congr 1
      exact ih _ (le_trans (Nat.le_of_lt_succ (Nat.div_lt_self (Nat.succ_pos n) (by norm_num)))
        (Nat.le_of_succ_le_succ hn))

theorem natToStr_data (n : ℕ) (hn : n ≠ 0) :
    (natToStr n).data = (Nat.digits 10 n).reverse.map digitChar := by
  rw [natToStr, if_neg hn, natDigitsRev_eq_digits n n le_rfl]

theorem mapOpt_digitVal (l : List ℕ) (h : ∀ d ∈ l, d < 10) :
    mapOpt digitVal (l.map digitChar) = some l := by
  induction l with
  | nil => rfl
  | cons d l ih =>
    rw [List.map_cons, mapOpt, digitVal_digitChar d (h d (List.mem_cons_self d l)),
      ih (fun x hx => h x (List.mem_cons_of_mem d hx))]

theorem foldl_reverse_ofDigits (L : List ℕ) (i : ℕ) :
    L.reverse.foldl (fun a d => 10 * a + d) i = i * 10 ^ L.length + Nat.ofDigits 10 L := by
  induction L generalizing i with
  | nil => simp
  | cons d L ih =>
    rw [List.reverse_cons, List.foldl_append, List.foldl_cons, List.foldl_nil, ih,
      Nat.ofDigits_cons, List.length_cons]
    ring

theorem parseDigits_natToStr (n : ℕ) : parseDigits (natToStr n).data = some n := by
  by_cases hn : n = 0
  · subst hn; rfl
  · have hne : (Nat.digits 10 n).reverse ≠ [] := by
      simp [Nat.digits_ne_nil_iff_ne_zero, hn]
    simp only [parseDigits, natToStr_data n hn,
      mapOpt_digitVal _ (fun d hd => Nat.digits_lt_base (by norm_num) (List.mem_reverse.mp hd)),
      if_neg hne]
    have := foldl_reverse_ofDigits (Nat.digits 10 n) 0
    rw [Nat.zero_mul, Nat.zero_add] at this
    rw [this, Nat.ofDigits_digits]

theorem natToStr_ne_nil (n : ℕ) : (natToStr n).data ≠ [] := by
  by_cases hn : n = 0
  · subst hn; simp [natToStr]
  · rw [natToStr_data n hn]
    simp [Nat.digits_ne_nil_iff_ne_zero, hn]

theorem natToStr_mem (n : ℕ) (c : Char) (hc : c ∈ (natToStr n).data) :
    ∃ d, d < 10 ∧ c = digitChar d := by
  by_cases hn : n = 0
  · subst hn
    rw [show natToStr 0 = "0" from rfl, show ("0" : String).data = ['0'] from rfl,
      List.mem_singleton] at hc
    exact ⟨0, by norm_num, hc⟩
  · rw [natToStr_data n hn] at hc
    rcases List.mem_map.mp hc with ⟨d, hd, rfl⟩
    exact ⟨d, Nat.digits_lt_base (by norm_num) (List.mem_reverse.mp hd), rfl⟩

theorem parseInt_natToStr (n : ℕ) : parseInt (natToStr n).data = some (n : ℤ) := by
  rcases hdata : (natToStr n).data with _ | ⟨c, rest⟩
  · exact absurd hdata (natToStr_ne_nil n)
  · have hc : c ∈ (natToStr n).data := by rw [hdata]; exact List.mem_cons_self c rest
    rcases natToStr_mem n c hc with ⟨d, hd, rfl⟩
    rcases digitChar_ne d hd with ⟨-, -, h3, h4, -⟩
    rw [parseInt, if_neg h3, if_neg h4, ← hdata, parseDigits_natToStr]

end ZmkConv

namespace ZmkConv

theorem data_append (a b : String) : (a ++ b).data = a.data ++ b.data := rfl

theorem intToStr_of_nonneg (k : ℤ) (hk : 0 ≤ k) : intToStr k = natToStr k.natAbs := by
  rw [intToStr, if_neg (not_lt.mpr hk)]

theorem intToStr_data_of_neg (k : ℤ) (hk : k < 0) :
    (intToStr k).data = '-' :: (natToStr k.natAbs).data := by
  rw [intToStr, if_pos hk, data_append]
  rfl

theorem lstripChars_cons_self (c : Char) (l : List Char) :
    lstripChars c (c :: l) = lstripChars c l := by
  simp [lstripChars, List.dropWhile_cons]

theorem lstripChars_cons_ne (c a : Char) (l : List Char) (h : a ≠ c) :
    lstripChars c (a :: l) = a :: l := by
  simp [lstripChars, List.dropWhile_cons, h]

theorem rstripChars_append_self (c : Char) (l : List Char) :
    rstripChars c (l ++ [c]) = rstripChars c l := by
  simp [rstripChars, List.dropWhile_cons]

theorem rstripChars_append_ne (c a : Char) (l : List Char) (h : a ≠ c) :
    rstripChars c (l ++ [a]) = l ++ [a] := by
  simp [rstripChars, List.dropWhile_cons, h]

theorem strips_natToStr (n : ℕ) :
    rstripChars ')' (lstripChars '(' (natToStr n).data) = (natToStr n).data := by
  rcases hdata : (natToStr n).data with _ | ⟨a, l⟩
  · exact absurd hdata (natToStr_ne_nil n)
  · have ha : a ∈ (natToStr n).data := by rw [hdata]; exact List.mem_cons_self a l
    rcases natToStr_mem n a ha with ⟨d, hd, rfl⟩
    rw [lstripChars_cons_ne _ _ _ (digitChar_ne d hd).1]
    rcases List.eq_nil_or_concat (digitChar d :: l) with hnil | ⟨L, b, hL⟩
    · cases hnil
    · rw [List.concat_eq_append] at hL
      have hb : b ∈ (natToStr n).data := by rw [hdata, hL]; simp
      rcases natToStr_mem n b hb with ⟨e, he, rfl⟩
      rw [hL, rstripChars_append_ne _ _ _ (digitChar_ne e he).2.1]

theorem rstripChars_minus_natToStr (n : ℕ) :
    rstripChars ')' ('-' :: (natToStr n).data) = '-' :: (natToStr n).data := by
  rcases List.eq_nil_or_concat ('-' :: (natToStr n).data) with hnil | ⟨L, b, hL⟩
  · cases hnil
  · rw [List.concat_eq_append] at hL
    have hb : b ∈ '-' :: (natToStr n).data := by rw [hL]; simp
    rw [List.mem_cons] at hb
    rcases hb with rfl | hb
    · rw [hL, rstripChars_append_ne _ _ _ (by decide : ('-' : Char) ≠ ')'), ← hL]
    · rcases natToStr_mem n b hb with ⟨e, he, rfl⟩
      rw [hL, rstripChars_append_ne _ _ _ (digitChar_ne e he).2.1, ← hL]

theorem parseInt_intToStr (k : ℤ) : parseInt (intToStr k).data = some k := by
  by_cases hk : k < 0
  · rw [intToStr_data_of_neg k hk, parseInt, if_pos rfl, parseDigits_natToStr]
    simp only [Option.some.injEq]
    omega
  · rw [intToStr_of_nonneg k (not_lt.mp hk), parseInt_natToStr,
      Int.natAbs_of_nonneg (not_lt.mp hk)]

end ZmkConv

namespace ZmkConv

theorem pyRound_intCast (k : ℤ) : pyRound ((k : ℚ)) = k := by
  simp only [pyRound, Int.floor_intCast]
  norm_num

theorem num_to_str_intCast (k : ℤ) :
    num_to_str ((k : ℚ)) = if 0 ≤ k then intToStr k else "(" ++ intToStr k ++ ")" := by
  rw [num_to_str, pyRound_intCast]
  by_cases hk : 0 ≤ k
  · rw [if_pos (by exact_mod_cast hk : (0:ℚ) ≤ (k:ℚ)), if_pos hk]
  · rw [if_neg (by exact_mod_cast hk : ¬ (0:ℚ) ≤ (k:ℚ)), if_neg hk]

theorem strips_intToStr (k : ℤ) :
    rstripChars ')' (lstripChars '(' (intToStr k).data) = (intToStr k).data := by
  by_cases hk : k < 0
  · rw [intToStr_data_of_neg k hk, lstripChars_cons_ne _ _ _ (by decide : ('-':Char) ≠ '('),
      rstripChars_minus_natToStr]
  · rw [intToStr_of_nonneg k (not_lt.mp hk)]
    exact strips_natToStr _

theorem parse_binding_num_intToStr (k : ℤ) :
    parse_binding_num (intToStr k) = some ((k : ℚ) / 100) := by
  rw [parse_binding_num, strips_intToStr, parseInt_intToStr]

theorem parse_binding_num_paren (k : ℤ) (hk : k < 0) :
    parse_binding_num ("(" ++ intToStr k ++ ")") = some ((k : ℚ) / 100) := by
  rw [parse_binding_num]
  have hdata : ("(" ++ intToStr k ++ ")").data = '(' :: ((intToStr k).data ++ [')']) := by
    rw [data_append, data_append]
    simp
  rw [hdata, lstripChars_cons_self, intToStr_data_of_neg k hk, List.cons_append,
    lstripChars_cons_ne _ _ _ (by decide : ('-':Char) ≠ '('), ← List.cons_append,
    rstripChars_append_self, rstripChars_minus_natToStr, ← intToStr_data_of_neg k hk,
    parseInt_intToStr]

theorem parse_binding_num_num_to_str (k : ℤ) :
    parse_binding_num (num_to_str ((k : ℚ))) = some ((k : ℚ) / 100) := by
  rw [num_to_str_intCast]
  by_cases hk : 0 ≤ k
  · rw [if_pos hk, parse_binding_num_intToStr]
  · rw [if_neg hk, parse_binding_num_paren k (not_le.mp hk)]

theorem roundtrip_token (q : ℚ) (h : twoDec q) :
    parse_binding_num (num_to_str (100 * q)) = some q := by
  obtain ⟨k, rfl⟩ := h
  have h100 : (100 : ℚ) * ((k : ℚ) / 100) = (k : ℚ) := by field_simp
  rw [h100, parse_binding_num_num_to_str]

end ZmkConv

namespace ZmkConv

/-! ### Generic helpers -/

theorem mapOpt_map (f : β → Option γ) (g : α → β) (l : List α) :
    mapOpt f (l.map g) = mapOpt (fun a => f (g a)) l := by
  induction l with
  | nil => rfl
  | cons a l ih => rw [List.map_cons, mapOpt, mapOpt, ih]

theorem mapOpt_congr {f g : α → Option β} {l : List α} (h : ∀ a ∈ l, f a = g a) :
    mapOpt f l = mapOpt g l := by
  induction l with
  | nil => rfl
  | cons a l ih =>
    rw [mapOpt, mapOpt, h a (List.mem_cons_self a l),
      ih (fun x hx => h x (List.mem_cons_of_mem a hx))]

theorem mapOpt_all_some {f : α → Option α} {l : List α} (h : ∀ a ∈ l, f a = some a) :
    mapOpt f l = some l := by
  induction l with
  | nil => rfl
  | cons a l ih =>
    rw [mapOpt, h a (List.mem_cons_self a l), ih (fun x hx => h x (List.mem_cons_of_mem a hx))]

theorem mapOpt_mem {f : α → Option β} {l : List α} {l' : List β}
    (h : mapOpt f l = some l') : ∀ b ∈ l', ∃ a ∈ l, f a = some b := by
  induction l generalizing l' with
  | nil =>
    rw [mapOpt] at h
    cases h
    intro b hb
    cases hb
  | cons a l ih =>
    rw [mapOpt] at h
    rcases ha : f a with _ | b0 <;> rw [ha] at h
    · cases h
    · rcases hl : mapOpt f l with _ | bs <;> rw [hl] at h
      · cases h
      · cases h
        intro b hb
        rcases List.mem_cons.mp hb with rfl | hb
        · exact ⟨a, List.mem_cons_self a l, ha⟩
        · rcases ih hl b hb with ⟨a', ha', hfa'⟩
          exact ⟨a', List.mem_cons_of_mem a ha', hfa'⟩

/-! ### Normalization -/

theorem listMin_le_init (a : ℚ) (l : List ℚ) : listMin a l ≤ a := by
  induction l generalizing a with
  | nil => exact le_rfl
  | cons b l ih => exact le_trans (ih (min a b)) (min_le_left a b)

theorem listMin_le_mem (a : ℚ) (l : List ℚ) (x : ℚ) (hx : x ∈ l) : listMin a l ≤ x := by
  induction l generalizing a with
  | nil => cases hx
  | cons b l ih =>
    rcases List.mem_cons.mp hx with rfl | hx
    · exact le_trans (listMin_le_init (min a x) l) (min_le_right a x)
    · exact ih (min a b) hx

theorem listMin_shift (a : ℚ) (l : List ℚ) (c : ℚ) :
    listMin (a - c) (l.map (fun v => v - c)) = listMin a l - c := by
  induction l generalizing a with
  | nil => rfl
  | cons b l ih =>
    rw [List.map_cons, listMin, List.foldl_cons, min_sub_sub_right]
    exact ih (min a b)

theorem shiftKey_zero (k : Key) : shiftKey 0 0 k = k := by
  cases k with
  | mk x y w h r rx ry =>
    simp only [shiftKey, sub_zero]
    cases rx <;> cases ry <;> simp [Option.map]

theorem shiftKey_x (mx my : ℚ) (k : Key) : (shiftKey mx my k).x = k.x - mx := rfl

theorem shiftKey_y (mx my : ℚ) (k : Key) : (shiftKey mx my k).y = k.y - my := rfl

theorem normalize_layout_cons (k : Key) (ks : List Key) :
    normalize_layout ⟨k :: ks⟩ =
      some ⟨(k :: ks).map
        (shiftKey (listMin k.x (ks.map Key.x)) (listMin k.y (ks.map Key.y)))⟩ := rfl

/-- The layout produced by the Normalizer has minimum x and y equal to 0, and
in particular all coordinates non-negative. -/
theorem normalize_layout_props (l l' : QmkLayout) (h : normalize_layout l = some l') :
    (∃ k0 ks, l'.layout = k0 :: ks ∧
      listMin k0.x (ks.map Key.x) = 0 ∧ listMin k0.y (ks.map Key.y) = 0) ∧
    ∀ key ∈ l'.layout, 0 ≤ key.x ∧ 0 ≤ key.y := by
  rcases hl : l.layout with _ | ⟨k, ks⟩
  · rw [normalize_layout, hl] at h
    cases h
  · rw [normalize_layout, hl] at h
    cases h
    constructor
    · refine ⟨_, _, rfl, ?_, ?_⟩
      · rw [List.map_map]
        have hxs : ks.map (Key.x ∘ shiftKey (listMin k.x (ks.map Key.x))
            (listMin k.y (ks.map Key.y))) = (ks.map Key.x).map
            (fun v => v - listMin k.x (ks.map Key.x)) := by
          rw [List.map_map]
          rfl
        rw [shiftKey_x, hxs, listMin_shift, sub_self]
      · rw [List.map_map]
        have hys : ks.map (Key.y ∘ shiftKey (listMin k.x (ks.map Key.x))
            (listMin k.y (ks.map Key.y))) = (ks.map Key.y).map
            (fun v => v - listMin k.y (ks.map Key.y)) := by
          rw [List.map_map]
          rfl
        rw [shiftKey_y, hys, listMin_shift, sub_self]
    · intro key hkey
      rcases List.mem_map.mp hkey with ⟨k1, hk1, rfl⟩
      rw [shiftKey_x, shiftKey_y]
      rcases List.mem_cons.mp hk1 with rfl | hk1
      · exact ⟨sub_nonneg.mpr (listMin_le_init _ _), sub_nonneg.mpr (listMin_le_init _ _)⟩
      · exact ⟨sub_nonneg.mpr (listMin_le_mem _ _ _ (List.mem_map_of_mem Key.x hk1)),
          sub_nonneg.mpr (listMin_le_mem _ _ _ (List.mem_map_of_mem Key.y hk1))⟩

end ZmkConv

namespace ZmkConv

/-! ### Binding-parameter parsing -/

theorem parsePos_sound (bs : List String) (i : ℕ) (o : Option ℚ) (h : parsePos bs i = some o) :
    o = (bs.get? i).bind parse_binding_num := by
  unfold parsePos at h
  split at h
  · rename_i hg
    cases h
    rw [hg, Option.none_bind]
  · rename_i s hg
    rcases hp : parse_binding_num s with _ | q <;> rw [hp] at h
    · simp at h
    · rw [Option.map_some'] at h
      cases h
      rw [hg, Option.some_bind, hp]

theorem parsePos_nil (i : ℕ) : parsePos [] i = some none := rfl

theorem parsePos_zero (s : String) (bs : List String) :
    parsePos (s :: bs) 0 = (parse_binding_num s).map some := rfl

theorem parsePos_succ (s : String) (bs : List String) (i : ℕ) :
    parsePos (s :: bs) (i + 1) = parsePos bs i := rfl

theorem parsePos_take (bs : List String) (i : ℕ) (h : i < 7) :
    parsePos (bs.take 7) i = parsePos bs i := by
  rw [parsePos, parsePos, List.get?_take h]

theorem pbn_token_eval (s : String) (k : ℤ) (q : ℚ)
    (hk : parseInt (rstripChars ')' (lstripChars '(' s.data)) = some k)
    (hq : (k : ℚ) / 100 = q) : parse_binding_num s = some q := by
  rw [parse_binding_num, hk]
  exact congrArg some hq

theorem pbn_tok_100 : parse_binding_num "100" = some 1 :=
  pbn_token_eval _ 100 _ (by decide) (by norm_num)

theorem pbn_tok_0 : parse_binding_num "0" = some 0 :=
  pbn_token_eval _ 0 _ (by decide) (by norm_num)

theorem pbn_tok_50 : parse_binding_num "50" = some (1/2) :=
  pbn_token_eval _ 50 _ (by decide) (by norm_num)

/-- Claim C6: when the decoded `r` is exactly 0 the `rx`/`ry` fields are
dropped from the resulting params even if the binding supplied tokens for
them; when `r` is non-zero they are retained as decoded.  In particular the
binding arguments `100 100 0 0 0 50 50` decode with `rx`/`ry` absent. -/
theorem claim_C6_r_zero_drops_rotation_origin :
    (∀ bs p, parse_binding_params bs = some p →
      (p.r = some 0 → p.rx = none ∧ p.ry = none) ∧
      (∀ rv, p.r = some rv → rv ≠ 0 →
        p.rx = (bs.get? 5).bind parse_binding_num ∧
        p.ry = (bs.get? 6).bind parse_binding_num)) ∧
    parse_binding_params ["100", "100", "0", "0", "0", "50", "50"] =
      some ⟨some 1, some 1, some 0, some 0, some 0, none, none⟩ := by
  constructor
  · intro bs p hp
    rw [parse_binding_params] at hp
    rcases h0 : parsePos bs 0 with _ | w <;> rw [h0] at hp
    · cases hp
    rcases h1 : parsePos bs 1 with _ | hh <;> rw [h1] at hp
    · cases hp
    rcases h2 : parsePos bs 2 with _ | x <;> rw [h2] at hp
    · cases hp
    rcases h3 : parsePos bs 3 with _ | y <;> rw [h3] at hp
    · cases hp
    rcases h4 : parsePos bs 4 with _ | r <;> rw [h4] at hp
    · cases hp
    rcases h5 : parsePos bs 5 with _ | rx <;> rw [h5] at hp
    · cases hp
    rcases h6 : parsePos bs 6 with _ | ry <;> rw [h6] at hp
    · cases hp
    simp only [Option.some_bind] at hp
    rcases r with _ | rv
    · cases hp
    rw [Option.some_bind] at hp
    split_ifs at hp with hrv
    · rcases rx with _ | rxv
      · cases hp
      rcases ry with _ | ryv
      · cases hp
      simp only [Option.some_bind] at hp
      cases hp
      refine ⟨fun _ => ⟨rfl, rfl⟩, ?_⟩
      intro rv' hr' hne
      cases Option.some.inj hr'
      exact absurd hrv hne
    · cases hp
      constructor
      · intro hr0
        exact absurd (Option.some.inj hr0) hrv
      · intro rv' hr' hne
        exact ⟨parsePos_sound bs 5 rx h5, parsePos_sound bs 6 ry h6⟩
  · rw [parse_binding_params]
    simp only [parsePos_zero, parsePos_succ, parsePos_nil, pbn_tok_100, pbn_tok_0, pbn_tok_50,
      Option.map_some', Option.some_bind]
    norm_num

end ZmkConv

namespace ZmkConv

/-- Claim C6 witness: the theorem applied at the test binding. -/
theorem claim_C6_witness :
    parse_binding_params ["100", "100", "0", "0", "0", "50", "50"] =
      some ⟨some 1, some 1, some 0, some 0, some 0, none, none⟩ ∧
    (KeyParams.mk (some 1) (some 1) (some 0) (some 0) (some 0) none none).rx = none ∧
    (KeyParams.mk (some 1) (some 1) (some 0) (some 0) (some 0) none none).ry = none :=
  ⟨claim_C6_r_zero_drops_rotation_origin.2,
   (claim_C6_r_zero_drops_rotation_origin.1 _ _ claim_C6_r_zero_drops_rotation_origin.2).1 rfl⟩

/-- Claim C9: tokens past the seventh are silently ignored — decoding a
binding equals decoding its first seven tokens, and a nine-token binding
decodes without error. -/
theorem claim_C9_surplus_tokens_ignored :
    (∀ bs : List String, parse_binding_params bs = parse_binding_params (bs.take 7)) ∧
    parse_binding_params ["100", "100", "0", "0", "100", "50", "50", "999", "888"] =
      some ⟨some 1, some 1, some 0, some 0, some 1, some (1/2), some (1/2)⟩ := by
  constructor
  · intro bs
    unfold parse_binding_params
    rw [parsePos_take bs 0 (by norm_num), parsePos_take bs 1 (by norm_num),
      parsePos_take bs 2 (by norm_num), parsePos_take bs 3 (by norm_num),
      parsePos_take bs 4 (by norm_num), parsePos_take bs 5 (by norm_num),
      parsePos_take bs 6 (by norm_num)]
  · rw [parse_binding_params]
    simp only [parsePos_zero, parsePos_succ, parsePos_nil, pbn_tok_100, pbn_tok_0, pbn_tok_50,
      Option.map_some', Option.some_bind]
    norm_num

/-- A layout whose minima are already 0 is left unchanged by the Normalizer. -/
theorem normalize_layout_self (l' : QmkLayout) (k0 : Key) (ks0 : List Key)
    (hl : l'.layout = k0 :: ks0)
    (hx : listMin k0.x (ks0.map Key.x) = 0) (hy : listMin k0.y (ks0.map Key.y) = 0) :
    normalize_layout l' = some l' := by
  obtain ⟨lay⟩ := l'
  simp only at hl
  subst hl
  rw [normalize_layout_cons, hx, hy]
  congr 1
  congr 1
  rw [List.map_congr_left (fun a _ => shiftKey_zero a), List.map_id']

/-- Claim C8: normalization is idempotent — normalizing the output of the
Normalizer changes nothing. -/
theorem claim_C8_normalize_idempotent (l : QmkLayout) (h : l.layout ≠ []) :
    (normalize_layout l).bind normalize_layout = normalize_layout l := by
  rcases hl : l.layout with _ | ⟨k, ks⟩
  · exact absurd hl h
  · obtain ⟨lay⟩ := l
    simp only at hl
    subst hl
    rw [normalize_layout_cons, Option.some_bind]
    have hprops := normalize_layout_props ⟨k :: ks⟩ _ (normalize_layout_cons k ks)
    rcases hprops.1 with ⟨k0, ks0, hl0, hx0, hy0⟩
    exact normalize_layout_self _ k0 ks0 hl0 hx0 hy0

/-- Claim C8 witness: the theorem applied to a concrete un-normalized layout. -/
theorem claim_C8_witness :
    ((⟨[⟨3, 2, 1, 1, 0, none, none⟩]⟩ : QmkLayout).layout ≠ []) ∧
    (normalize_layout ⟨[⟨3, 2, 1, 1, 0, none, none⟩]⟩).bind normalize_layout =
      normalize_layout ⟨[⟨3, 2, 1, 1, 0, none, none⟩]⟩ :=
  ⟨by simp, claim_C8_normalize_idempotent _ (by simp)⟩

end ZmkConv

namespace ZmkConv

/-- Claim C2 counterexample: the bare-array shorthand is NOT normalized —
decoding `[{"x": -1, "y": 0}]` yields a "Default" layout whose key keeps
`x = -1 < 0`. -/
theorem claim_C2_counterexample :
    qmk_json_to_layouts (QmkJson.list [⟨-1, 0, none, none, none, none, none⟩]) =
      some [("Default", ⟨[⟨-1, 0, 1, 1, 0, none, none⟩]⟩)] ∧ ((-1 : ℚ) < 0) :=
  ⟨rfl, by norm_num⟩

/-- Claim C2 (amended): decoding the `"layouts"`-object form normalizes every
member (minimum x and y are 0, all coordinates non-negative); the bare-array
shorthand instead builds the single "Default" entry directly from the key
objects, without the Normalizer. -/
theorem claim_C2_amended :
    (∀ es m, qmk_json_to_layouts (QmkJson.layouts es) = some m →
      ∀ e ∈ m, (∃ k0 ks, e.2.layout = k0 :: ks ∧
          listMin k0.x (ks.map Key.x) = 0 ∧ listMin k0.y (ks.map Key.y) = 0) ∧
        ∀ key ∈ e.2.layout, 0 ≤ key.x ∧ 0 ≤ key.y) ∧
    (∀ ks, qmk_json_to_layouts (QmkJson.list ks) = some [("Default", ⟨ks.map dictToKey⟩)]) := by
  constructor
  · intro es m hm e he
    rcases mapOpt_mem hm e he with ⟨a, -, ha⟩
    rcases hn : normalize_layout ⟨a.2.map dictToKey⟩ with _ | l' <;> rw [hn] at ha
    · cases ha
    · rw [Option.map_some'] at ha
      cases ha
      exact normalize_layout_props _ _ hn
  · intro ks
    rfl

/-- Claim C2 witness: the amended theorem applied at a concrete
`"layouts"`-object input. -/
theorem claim_C2_witness :
    qmk_json_to_layouts (QmkJson.layouts [("A", [⟨2, 3, none, none, none, none, none⟩])]) =
      some [("A", ⟨[⟨2 - 2, 3 - 3, 1, 1, 0, none, none⟩]⟩)] ∧
    (0 ≤ (Key.mk (2 - 2) (3 - 3) 1 1 0 none none).x ∧
     0 ≤ (Key.mk (2 - 2) (3 - 3) 1 1 0 none none).y) := by
  have hdec : qmk_json_to_layouts (QmkJson.layouts [("A", [⟨2, 3, none, none, none, none, none⟩])]) =
      some [("A", ⟨[⟨2 - 2, 3 - 3, 1, 1, 0, none, none⟩]⟩)] := rfl
  exact ⟨hdec, (claim_C2_amended.1 _ _ hdec _ (List.mem_singleton.mpr rfl)).2 _
    (List.mem_singleton.mpr rfl)⟩

/-- Claim C3: the fixed-point codec round-trips every value with at most two
fractional digits: decoding the token `num_to_str (100 * v)` yields exactly
`v`. -/
theorem claim_C3_fixed_point_roundtrip (v : ℚ) (h : twoDec v) :
    parse_binding_num (num_to_str (100 * v)) = some v :=
  roundtrip_token v h

/-- Claim C3 witness: the round trip at `v = -3/4`. -/
theorem claim_C3_witness :
    twoDec (-3/4 : ℚ) ∧ parse_binding_num (num_to_str (100 * (-3/4 : ℚ))) = some (-3/4) :=
  ⟨⟨-75, by norm_num⟩, claim_C3_fixed_point_roundtrip _ ⟨-75, by norm_num⟩⟩

end ZmkConv

namespace ZmkConv

/-! ### Paren stripping (claim C4) and rounding (claims C5, C7) -/

theorem strip_pair (l : List Char) :
    rstripChars ')' (lstripChars '(' (l ++ [')'])) = rstripChars ')' (lstripChars '(' l) := by
  induction l with
  | nil => rfl
  | cons a l ih =>
    by_cases ha : a = '('
    · subst ha
      rw [List.cons_append, lstripChars_cons_self, lstripChars_cons_self, ih]
    · rw [List.cons_append, lstripChars_cons_ne _ _ _ ha, lstripChars_cons_ne _ _ _ ha,
        ← List.cons_append, rstripChars_append_self]

theorem pbn_tok_unmatched : parse_binding_num "(100" = some 1 :=
  pbn_token_eval _ 100 _ (by decide) (by norm_num)

/-- Claim C4 counterexample: a token with exactly one parenthesis is not
rejected — `"(100"` decodes to 1.0 — and more than one pair is stripped —
`"((25))"` decodes to 0.25. -/
theorem claim_C4_counterexample :
    parse_binding_num "(100" = some 1 ∧ parse_binding_num "(100" ≠ none ∧
    parse_binding_num "((25))" = some (1/4) := by
  refine ⟨pbn_tok_unmatched, ?_, pbn_token_eval _ 25 _ (by decide) (by norm_num)⟩
  rw [pbn_tok_unmatched]
  exact Option.some_ne_none 1

/-- Claim C4 (amended): the decode step strips ALL leading `"("` and ALL
trailing `")"`, each independently of the other — prepending `"("` or
appending `")"` to a token never changes the result, matched or not; the
parse fails only when the remaining characters are not a signed integer. -/
theorem claim_C4_amended (l : List Char) :
    parse_binding_num (String.mk ('(' :: l)) = parse_binding_num (String.mk l) ∧
    parse_binding_num (String.mk (l ++ [')'])) = parse_binding_num (String.mk l) := by
  constructor
  · rw [parse_binding_num, parse_binding_num,
      show (String.mk ('(' :: l)).data = '(' :: l from rfl,
      show (String.mk l).data = l from rfl, lstripChars_cons_self]
  · rw [parse_binding_num, parse_binding_num,
      show (String.mk (l ++ [')'])).data = l ++ [')'] from rfl,
      show (String.mk l).data = l from rfl, strip_pair]

theorem pyRound_nonneg (q : ℚ) (h : 0 ≤ q) : 0 ≤ pyRound q := by
  have hf : 0 ≤ ⌊q⌋ := Int.floor_nonneg.mpr h
  unfold pyRound
  split_ifs <;> omega

theorem pyRound_abs_le (q : ℚ) : |(pyRound q : ℚ) - q| ≤ 1/2 := by
  have hfl : (⌊q⌋ : ℚ) ≤ q := Int.floor_le q
  have hfu : q < ⌊q⌋ + 1 := Int.lt_floor_add_one q
  unfold pyRound
  split_ifs with h1 h2 h3 <;> rw [abs_le] <;> constructor <;> push_cast <;> linarith

theorem pyRound_tie_even (q : ℚ) (h : |(pyRound q : ℚ) - q| = 1/2) : Even (pyRound q) := by
  have hfl : (⌊q⌋ : ℚ) ≤ q := Int.floor_le q
  have hfu : q < ⌊q⌋ + 1 := Int.lt_floor_add_one q
  unfold pyRound at h ⊢
  split_ifs at h ⊢ with h1 h2 h3
  · exfalso
    have hle : (⌊q⌋ : ℚ) - q ≤ 0 := by linarith
    rw [abs_of_nonpos hle] at h
    linarith
  · exfalso
    have hge : 0 ≤ ((⌊q⌋ + 1 : ℤ) : ℚ) - q := by push_cast; linarith
    rw [abs_of_nonneg hge] at h
    push_cast at h
    linarith
  · exact Int.even_iff.mpr h3
  · refine Int.even_add_one.mpr (fun he => h3 (Int.even_iff.mp he))

theorem floor_25_2 : ⌊(25/2 : ℚ)⌋ = 12 := by
  rw [Int.floor_eq_iff] <;> norm_num

theorem pyRound_25_2 : pyRound (25/2 : ℚ) = 12 := by
  unfold pyRound
  rw [floor_25_2]
  norm_num

/-- Claim C5 counterexample: at `v = 1/8` (scaled value 12.5) the encoder
emits "12" — Python `round` ties to even — while round-half-away-from-zero
would give 13. -/
theorem claim_C5_counterexample :
    num_to_str (100 * (1/8 : ℚ)) = "12" ∧
    roundHalfAwayFromZero (100 * (1/8 : ℚ)) = 13 ∧
    num_to_str (100 * (1/8 : ℚ)) ≠ intToStr (roundHalfAwayFromZero (100 * (1/8 : ℚ))) := by
  have h1 : (100 : ℚ) * (1/8) = 25/2 := by norm_num
  have hha : roundHalfAwayFromZero (25/2 : ℚ) = 13 := by
    unfold roundHalfAwayFromZero
    rw [if_pos (by norm_num : (0:ℚ) ≤ 25/2),
      show (25/2 : ℚ) + 1/2 = ((13:ℤ):ℚ) from by norm_num, Int.floor_intCast]
  have henc : num_to_str (25/2 : ℚ) = "12" := by
    rw [num_to_str, if_pos (by norm_num : (0:ℚ) ≤ 25/2), pyRound_25_2]
    decide
  refine ⟨by rw [h1, henc], by rw [h1, hha], ?_⟩
  rw [h1, henc, hha]
  decide

/-- Claim C5 (amended): the encoder multiplies by 100 and rounds to a nearest
integer with ties to even (Python `round`, banker's rounding), not
half-away-from-zero: the rounded value is within 1/2 of the scaled value and
is even whenever the scaled value is an exact tie. -/
theorem claim_C5_amended (v : ℚ) :
    (0 ≤ 100 * v → num_to_str (100 * v) = intToStr (pyRound (100 * v))) ∧
    |(pyRound (100 * v) : ℚ) - 100 * v| ≤ 1/2 ∧
    (|(pyRound (100 * v) : ℚ) - 100 * v| = 1/2 → Even (pyRound (100 * v))) := by
  refine ⟨fun h => ?_, pyRound_abs_le _, pyRound_tie_even _⟩
  rw [num_to_str, if_pos h]

/-- Claim C5 witness: the amended theorem at the tie `v = 1/8`. -/
theorem claim_C5_witness :
    (0 ≤ 100 * (1/8 : ℚ) ∧
      num_to_str (100 * (1/8 : ℚ)) = intToStr (pyRound (100 * (1/8 : ℚ)))) ∧
    (|(pyRound (100 * (1/8 : ℚ)) : ℚ) - 100 * (1/8)| = 1/2 ∧
      Even (pyRound (100 * (1/8 : ℚ)))) := by
  have h0 : (0:ℚ) ≤ 100 * (1/8) := by norm_num
  have htie : |(pyRound (100 * (1/8 : ℚ)) : ℚ) - 100 * (1/8)| = 1/2 := by
    rw [show (100:ℚ) * (1/8) = 25/2 from by norm_num, pyRound_25_2]
    norm_num
  exact ⟨⟨h0, (claim_C5_amended (1/8)).1 h0⟩, ⟨htie, (claim_C5_amended (1/8)).2.2 htie⟩⟩

/-- Claim C7 counterexample: the encoder branches on the sign of the scaled
value BEFORE rounding: at `v = -1/250` the scaled-and-rounded result is 0
(non-negative), yet the output is "(0)", not the plain digits "0". -/
theorem claim_C7_counterexample :
    pyRound (100 * (-1/250 : ℚ)) = 0 ∧
    num_to_str (100 * (-1/250 : ℚ)) = "(0)" ∧
    num_to_str (100 * (-1/250 : ℚ)) ≠ intToStr 0 := by
  have h1 : (100:ℚ) * (-1/250) = -2/5 := by norm_num
  have hfl : ⌊(-2/5 : ℚ)⌋ = -1 := by
    rw [Int.floor_eq_iff] <;> norm_num
  have hpr : pyRound (-2/5 : ℚ) = 0 := by
    unfold pyRound
    rw [hfl]
    norm_num
  refine ⟨by rw [h1]; exact hpr, ?_, ?_⟩
  · rw [h1, num_to_str, if_neg (by norm_num : ¬ (0:ℚ) ≤ -2/5), hpr]
    decide
  · rw [h1, num_to_str, if_neg (by norm_num : ¬ (0:ℚ) ≤ -2/5), hpr]
    decide

/-- Claim C7 (amended): the encoder emits plain digits when the SCALED value
is non-negative and parenthesized digits whenever the rounded result is
negative; the concrete values of the claim hold: encode(-1.0) = "(-100)",
encode(0.0) = "0", encode(1.25) = "125". -/
theorem claim_C7_amended :
    (∀ v : ℚ, pyRound (100 * v) < 0 →
      num_to_str (100 * v) = "(" ++ intToStr (pyRound (100 * v)) ++ ")") ∧
    (∀ v : ℚ, 0 ≤ 100 * v → num_to_str (100 * v) = intToStr (pyRound (100 * v))) ∧
    num_to_str (100 * (-1 : ℚ)) = "(-100)" ∧ num_to_str (100 * (0 : ℚ)) = "0" ∧
    num_to_str (100 * (5/4 : ℚ)) = "125" := by
  refine ⟨?_, ?_, ?_, ?_, ?_⟩
  · intro v hv
    have hneg : ¬ 0 ≤ 100 * v := fun h => absurd (pyRound_nonneg _ h) (not_le.mpr hv)
    rw [num_to_str, if_neg hneg]
  · intro v hv
    rw [num_to_str, if_pos hv]
  · rw [show (100:ℚ) * (-1) = ((-100 : ℤ):ℚ) from by norm_num, num_to_str_intCast]
    decide
  · rw [show (100:ℚ) * 0 = ((0 : ℤ):ℚ) from by norm_num, num_to_str_intCast]
    decide
  · rw [show (100:ℚ) * (5/4) = ((125 : ℤ):ℚ) from by norm_num, num_to_str_intCast]
    decide

/-- Claim C7 witness: the amended theorem applied on both sides of the sign
branch. -/
theorem claim_C7_witness :
    (pyRound (100 * (-1 : ℚ)) < 0 ∧
      num_to_str (100 * (-1 : ℚ)) = "(" ++ intToStr (pyRound (100 * (-1 : ℚ))) ++ ")") ∧
    (0 ≤ 100 * (2 : ℚ) ∧ num_to_str (100 * (2 : ℚ)) = intToStr (pyRound (100 * (2 : ℚ)))) := by
  have hneg : pyRound (100 * (-1 : ℚ)) < 0 := by
    rw [show (100:ℚ) * (-1) = ((-100 : ℤ):ℚ) from by norm_num, pyRound_intCast]
    decide
  have hpos : (0:ℚ) ≤ 100 * 2 := by norm_num
  exact ⟨⟨hneg, claim_C7_amended.1 (-1) hneg⟩, ⟨hpos, claim_C7_amended.2.1 2 hpos⟩⟩

end ZmkConv

namespace ZmkConv

/-! ### Python dict semantics (claim C10) -/


theorem dictGet_insert_self [DecidableEq α] (d : List (α × β)) (kv : α × β) :
    dictGet (pyDictInsert d kv) kv.1 = some kv.2 := by
  induction d with
  | nil => rw [pyDictInsert, dictGet, if_pos rfl]
  | cons p rest ih =>
    rw [pyDictInsert]
    by_cases hp : p.1 = kv.1
    · rw [if_pos hp, dictGet, if_pos rfl]
    · rw [if_neg hp, dictGet, if_neg hp, ih]

theorem dictGet_insert_ne [DecidableEq α] (d : List (α × β)) (kv : α × β) (k : α)
    (h : kv.1 ≠ k) : dictGet (pyDictInsert d kv) k = dictGet d k := by
  induction d with
  | nil => simp [pyDictInsert, dictGet, h]
  | cons p rest ih =>
    rw [pyDictInsert]
    by_cases hp : p.1 = kv.1
    · rw [if_pos hp, dictGet, dictGet, if_neg h, if_neg (fun hc => h (hp.symm.trans hc))]
    · rw [if_neg hp, dictGet, dictGet, ih]

theorem dictGet_foldl [DecidableEq α] (l : List (α × β)) (d : List (α × β)) (k : α)
    (h : ∀ q ∈ l, q.1 ≠ k) : dictGet (l.foldl pyDictInsert d) k = dictGet d k := by
  induction l generalizing d with
  | nil => rfl
  | cons q l ih =>
    rw [List.foldl_cons, ih _ (fun x hx => h x (List.mem_cons_of_mem q hx)),
      dictGet_insert_ne d q k (h q (List.mem_cons_self q l))]

theorem dictGet_last [DecidableEq α] (pre post : List (α × β)) (kv : α × β)
    (h : ∀ q ∈ post, q.1 ≠ kv.1) :
    dictGet (pyDictOf (pre ++ kv :: post)) kv.1 = some kv.2 := by
  rw [pyDictOf, List.foldl_append, List.foldl_cons, dictGet_foldl post _ kv.1 h,
    dictGet_insert_self]

theorem pbp_args_r1 :
    parse_binding_params ["100", "100", "0", "0", "100", "50", "50"] =
      some ⟨some 1, some 1, some 0, some 0, some 1, some (1/2), some (1/2)⟩ := by
  rw [parse_binding_params]
  simp only [parsePos_zero, parsePos_succ, parsePos_nil, pbn_tok_100, pbn_tok_0, pbn_tok_50,
    Option.map_some', Option.some_bind]
  norm_num

/-- Claim C10: when several physical-layout nodes share a display name, the
dict comprehension keeps only the LAST such node's keys (no error); a
two-node input with the same name "A" decodes to the second node's layout
alone. -/
theorem claim_C10_duplicate_names_last_wins :
    (∀ (pre post : List DtsNode) (n : DtsNode),
      (∀ p ∈ post, p.display_name ≠ n.display_name) →
      dictGet (pyDictOf ((pre ++ n :: post).map (fun nd => (nd.display_name, nd.keys))))
        n.display_name = some n.keys) ∧
    dts_to_layouts
      ⟨[⟨some "A", some [["&key_physical_attrs", "100", "100", "0", "0", "0", "50", "50"]]⟩,
        ⟨some "A", some [["&key_physical_attrs", "100", "100", "0", "0", "100", "50", "50"]]⟩],
       none⟩ =
      some [("A", ⟨[⟨0, 0, 1, 1, 1, some (1/2), some (1/2)⟩]⟩)] := by
  constructor
  · intro pre post n h
    rw [List.map_append, List.map_cons]
    refine dictGet_last (pre.map _) (post.map _) (n.display_name, n.keys) ?_
    intro q hq
    rcases List.mem_map.mp hq with ⟨p, hp, rfl⟩
    exact h p hp
  · have hbk : binding_to_key ["&key_physical_attrs", "100", "100", "0", "0", "100", "50", "50"]
        = some ⟨0, 0, 1, 1, 1, some (1/2), some (1/2)⟩ := by
      rw [show binding_to_key ["&key_physical_attrs", "100", "100", "0", "0", "100", "50",
          "50"] =
        (if String.mk (lstripChars '&' ("&key_physical_attrs" : String).data) =
            "key_physical_attrs" then
          (parse_binding_params ["100", "100", "0", "0", "100", "50", "50"]).bind paramsToKey
        else none) from rfl,
        if_pos (by decide : String.mk (lstripChars '&' ("&key_physical_attrs" : String).data) =
          "key_physical_attrs"), pbp_args_r1]
      rfl
    have hle : layoutEntry (some "A",
        some [["&key_physical_attrs", "100", "100", "0", "0", "100", "50", "50"]]) =
        some ("A", ⟨[⟨0, 0, 1, 1, 1, some (1/2), some (1/2)⟩]⟩) := by
      rw [show layoutEntry (some "A",
          some [["&key_physical_attrs", "100", "100", "0", "0", "100", "50", "50"]]) =
        (mapOpt binding_to_key
            [["&key_physical_attrs", "100", "100", "0", "0", "100", "50", "50"]]).bind
          (fun keys => (normalize_layout ⟨keys⟩).map (fun l => ("A", l))) from rfl,
        mapOpt, hbk]
      rw [show mapOpt binding_to_key ([] : List (List String)) = some [] from rfl,
        Option.some_bind,
        normalize_layout_self ⟨[⟨0, 0, 1, 1, 1, some (1/2), some (1/2)⟩]⟩
          ⟨0, 0, 1, 1, 1, some (1/2), some (1/2)⟩ [] rfl rfl rfl, Option.map_some']
    rw [dts_to_layouts, if_pos (by decide : ([⟨some "A", some [["&key_physical_attrs", "100",
      "100", "0", "0", "0", "50", "50"]]⟩, ⟨some "A", some [["&key_physical_attrs", "100", "100",
      "0", "0", "100", "50", "50"]]⟩] : List DtsNode) ≠ [])]
    rw [show pyDictOf (([⟨some "A", some [["&key_physical_attrs", "100", "100", "0", "0", "0",
        "50", "50"]]⟩, ⟨some "A", some [["&key_physical_attrs", "100", "100", "0", "0", "100",
        "50", "50"]]⟩] : List DtsNode).map (fun n => (n.display_name, n.keys))) =
      [(some "A", some [["&key_physical_attrs", "100", "100", "0", "0", "100", "50", "50"]])]
      from by decide]
    rw [Option.some_bind, mapOpt, hle]
    rfl

/-- Claim C10 witness: the dict part of the theorem applied at a concrete
two-node list. -/
theorem claim_C10_witness :
    (∀ p ∈ ([] : List DtsNode),
      p.display_name ≠ (DtsNode.mk (some "A") (some [])).display_name) ∧
    dictGet (pyDictOf ((([⟨some "B", some []⟩] : List DtsNode) ++
        (⟨some "A", some []⟩ : DtsNode) :: []).map (fun nd => (nd.display_name, nd.keys))))
      (some "A") = some (some []) :=
  ⟨by simp, claim_C10_duplicate_names_last_wins.1 [⟨some "B", some []⟩] []
    ⟨some "A", some []⟩ (by simp)⟩

end ZmkConv

namespace ZmkConv


theorem twoDec_zero : twoDec 0 := ⟨0, by norm_num⟩

theorem twoDec_getD (o : Option ℚ) (h : ∀ v, o = some v → twoDec v) : twoDec (o.getD 0) := by
  cases o with
  | none => exact twoDec_zero
  | some v => exact h v rfl

theorem binding_roundtrip (k : Key) (hg : goodKey k) (hp : presKey k) :
    binding_to_key (encodeKeyBinding k) = some k := by
  obtain ⟨x, y, w, h, r, rx, ry⟩ := k
  obtain ⟨hx, hy, hw, hh, hr, hrx, hry⟩ := hg
  rw [encodeKeyBinding,
    show binding_to_key ("&key_physical_attrs" ::
        [num_to_str (100 * (Key.mk x y w h r rx ry).w), num_to_str (100 * (Key.mk x y w h r rx ry).h),
         num_to_str (100 * (Key.mk x y w h r rx ry).x), num_to_str (100 * (Key.mk x y w h r rx ry).y),
         num_to_str (100 * (Key.mk x y w h r rx ry).r),
         num_to_str (100 * ((Key.mk x y w h r rx ry).rx.getD 0)),
         num_to_str (100 * ((Key.mk x y w h r rx ry).ry.getD 0))]) =
      (if String.mk (lstripChars '&' ("&key_physical_attrs" : String).data) =
          "key_physical_attrs" then
        (parse_binding_params
          [num_to_str (100 * w), num_to_str (100 * h), num_to_str (100 * x),
           num_to_str (100 * y), num_to_str (100 * r), num_to_str (100 * (rx.getD 0)),
           num_to_str (100 * (ry.getD 0))]).bind paramsToKey
      else none) from rfl,
    if_pos (by decide : String.mk (lstripChars '&' ("&key_physical_attrs" : String).data) =
      "key_physical_attrs")]
  rw [parse_binding_params]
  simp only [parsePos_zero, parsePos_succ, parsePos_nil, roundtrip_token _ hw,
    roundtrip_token _ hh, roundtrip_token _ hx, roundtrip_token _ hy, roundtrip_token _ hr,
    roundtrip_token _ (twoDec_getD rx hrx), roundtrip_token _ (twoDec_getD ry hry),
    Option.map_some', Option.some_bind]
  by_cases hr0 : r = 0
  · rw [if_pos hr0]
    obtain ⟨hrxn, hryn⟩ := hp.1 hr0
    simp only at hrxn hryn
    subst hrxn
    subst hryn
    rfl
  · rw [if_neg hr0]
    obtain ⟨hrxs, hrys⟩ := hp.2 hr0
    simp only at hrxs hrys
    obtain ⟨vx, hvx⟩ := Option.ne_none_iff_exists'.mp hrxs
    obtain ⟨vy, hvy⟩ := Option.ne_none_iff_exists'.mp hrys
    subst hvx
    subst hvy
    rfl

theorem layout_roundtrip_entry (n : String) (l : QmkLayout)
    (h : ∀ k ∈ l.layout, goodKey k ∧ presKey k) :
    layoutEntry (some n, some (l.layout.map encodeKeyBinding)) =
      (normalize_layout l).map (fun l' => (n, l')) := by
  rw [show layoutEntry (some n, some (l.layout.map encodeKeyBinding)) =
      (mapOpt binding_to_key (l.layout.map encodeKeyBinding)).bind
        (fun keys => (normalize_layout ⟨keys⟩).map (fun l' => (n, l'))) from rfl,
    mapOpt_map,
    mapOpt_all_some (fun k hk => binding_roundtrip k (h k hk).1 (h k hk).2),
    Option.some_bind]

theorem pyDictInsert_notmem [DecidableEq α] (d : List (α × β)) (kv : α × β)
    (h : ∀ p ∈ d, p.1 ≠ kv.1) : pyDictInsert d kv = d ++ [kv] := by
  induction d with
  | nil => rfl
  | cons p rest ih =>
    rw [pyDictInsert, if_neg (h p (List.mem_cons_self _ _)),
      ih (fun q hq => h q (List.mem_cons_of_mem _ hq)), List.cons_append]

theorem pyDictOf_foldl_nodup [DecidableEq α] (l : List (α × β)) :
    ∀ d : List (α × β), (∀ q ∈ l, ∀ p ∈ d, p.1 ≠ q.1) → (l.map Prod.fst).Nodup →
    l.foldl pyDictInsert d = d ++ l := by
  induction l with
  | nil =>
    intro d _ _
    rw [List.foldl_nil, List.append_nil]
  | cons q l ih =>
    intro d hd hl
    rw [List.map_cons, List.nodup_cons] at hl
    rw [List.foldl_cons, pyDictInsert_notmem d q (fun p hp => hd q (List.mem_cons_self _ _) p hp),
      ih (d ++ [q]) ?_ hl.2, List.append_assoc, List.singleton_append]
    intro q' hq' p hp
    rcases List.mem_append.mp hp with hp | hp
    · exact hd q' (List.mem_cons_of_mem _ hq') p hp
    · rw [List.mem_singleton] at hp
      subst hp
      exact fun heq => hl.1 (heq ▸ List.mem_map_of_mem Prod.fst hq')

theorem pyDictOf_nodup [DecidableEq α] (l : List (α × β))
    (hl : (l.map Prod.fst).Nodup) : pyDictOf l = l := by
  rw [pyDictOf, pyDictOf_foldl_nodup l [] (by simp) hl, List.nil_append]

theorem dts_roundtrip (m : List (String × QmkLayout)) (hnodup : (m.map Prod.fst).Nodup)
    (hne : m ≠ [])
    (hkeys : ∀ e ∈ m, ∀ k ∈ e.2.layout, goodKey k ∧ presKey k) :
    dts_to_layouts ⟨layouts_to_dts m, none⟩ = normalizeSet m := by
  rw [dts_to_layouts]
  rw [if_pos (show (DtsInput.mk (layouts_to_dts m) none).nodes ≠ [] by
    rw [layouts_to_dts]
    simpa using hne)]
  rw [show (DtsInput.mk (layouts_to_dts m) none).nodes = layouts_to_dts m from rfl,
    layouts_to_dts, List.map_map]
  rw [pyDictOf_nodup _ ?_, Option.some_bind, mapOpt_map, normalizeSet]
  · exact mapOpt_congr (fun e he => layout_roundtrip_entry e.1 e.2 (hkeys e he))
  · rw [List.map_map]
    show (m.map (some ∘ Prod.fst)).Nodup
    rw [← List.map_map]
    exact hnodup.map (Option.some_injective String)

end ZmkConv

namespace ZmkConv

theorem dictToKey_keyToDict (k : Key) : dictToKey (keyToDict k) = k := by
  obtain ⟨x, y, w, h, r, rx, ry⟩ := k
  rw [keyToDict, dictToKey]
  simp only
  split_ifs with h1 h2 h3 <;> simp_all

theorem json_roundtrip (m : List (String × QmkLayout)) :
    qmk_json_to_layouts (layouts_to_json m) = normalizeSet m := by
  rw [layouts_to_json]
  show mapOpt _ (m.map _) = _
  rw [mapOpt_map, normalizeSet]
  refine mapOpt_congr (fun e _ => ?_)
  rw [List.map_map, show (dictToKey ∘ keyToDict) = fun a => dictToKey (keyToDict a) from rfl,
    List.map_congr_left (fun a _ => dictToKey_keyToDict a), List.map_id']

/-- Claim C1 (amended): for a Layout Set with unique names, at least one
layout, 2-decimal coordinates, and rx/ry present exactly when r is non-zero,
decoding the encoding yields the normalized set for BOTH codecs.  (As stated
the claim fails: DTS decode materializes rx/ry = 0 when r is non-zero and
they were absent, and drops them when r = 0 — see the counterexample.) -/
theorem claim_C1_roundtrip_amended (m : List (String × QmkLayout))
    (hnodup : (m.map Prod.fst).Nodup) (hne : m ≠ [])
    (hkeys : ∀ e ∈ m, ∀ k ∈ e.2.layout, goodKey k ∧ presKey k) :
    qmk_json_to_layouts (layouts_to_json m) = normalizeSet m ∧
    dts_to_layouts ⟨layouts_to_dts m, none⟩ = normalizeSet m :=
  ⟨json_roundtrip m, dts_roundtrip m hnodup hne hkeys⟩

end ZmkConv

namespace ZmkConv

theorem tok_enc_1 : num_to_str (100 * (1 : ℚ)) = "100" := by
  rw [show (100:ℚ) * 1 = ((100 : ℤ) : ℚ) from by norm_num, num_to_str_intCast]
  decide

theorem tok_enc_0 : num_to_str (100 * (0 : ℚ)) = "0" := by
  rw [show (100:ℚ) * 0 = ((0 : ℤ) : ℚ) from by norm_num, num_to_str_intCast]
  decide

theorem tok_enc_90 : num_to_str (100 * (90 : ℚ)) = "9000" := by
  rw [show (100:ℚ) * 90 = ((9000 : ℤ) : ℚ) from by norm_num, num_to_str_intCast]
  decide

theorem pbn_tok_9000 : parse_binding_num "9000" = some 90 :=
  pbn_token_eval _ 9000 _ (by decide) (by norm_num)

theorem mapOpt_singleton (f : α → Option β) (a : α) :
    mapOpt f [a] = (f a).map (fun b => [b]) := by
  rcases hf : f a with _ | b <;> simp [mapOpt, hf]

theorem twoDec_q0 : twoDec (0 : ℚ) := ⟨0, by norm_num⟩

theorem twoDec_q1 : twoDec (1 : ℚ) := ⟨100, by norm_num⟩

theorem twoDec_q90 : twoDec (90 : ℚ) := ⟨9000, by norm_num⟩

theorem goodKey_mk (x y w h r : ℚ) (hx : twoDec x) (hy : twoDec y) (hw : twoDec w)
    (hh : twoDec h) (hr : twoDec r) : goodKey ⟨x, y, w, h, r, none, none⟩ := by
  refine ⟨hx, hy, hw, hh, hr, ?_, ?_⟩ <;> (intro v hv; cases hv)

theorem presKey_mk_r0 (x y w h : ℚ) : presKey ⟨x, y, w, h, 0, none, none⟩ :=
  ⟨fun _ => ⟨rfl, rfl⟩, fun hr => absurd rfl hr⟩

/-- Claim C1 counterexample: with 2-decimal coordinates throughout, a key
with `r = 90` and absent `rx`/`ry` round-trips through the DTS codec to a
key with `rx = ry = some 0` — not equal to `normalize` of the original, so
`decode(encode(x)) == normalize(x)` fails for the DTS codec as stated. -/
theorem claim_C1_counterexample :
    (∀ k ∈ (QmkLayout.mk [⟨0, 0, 1, 1, 90, none, none⟩]).layout, goodKey k) ∧
    dts_to_layouts ⟨layouts_to_dts [("A", ⟨[⟨0, 0, 1, 1, 90, none, none⟩]⟩)], none⟩ =
      some [("A", ⟨[⟨0, 0, 1, 1, 90, some 0, some 0⟩]⟩)] ∧
    normalizeSet [("A", ⟨[⟨0, 0, 1, 1, 90, none, none⟩]⟩)] =
      some [("A", ⟨[⟨0, 0, 1, 1, 90, none, none⟩]⟩)] ∧
    dts_to_layouts ⟨layouts_to_dts [("A", ⟨[⟨0, 0, 1, 1, 90, none, none⟩]⟩)], none⟩ ≠
      normalizeSet [("A", ⟨[⟨0, 0, 1, 1, 90, none, none⟩]⟩)] := by
  have hgood : ∀ k ∈ (QmkLayout.mk [⟨0, 0, 1, 1, 90, none, none⟩]).layout, goodKey k := by
    intro k hk
    rw [show (QmkLayout.mk [⟨0, 0, 1, 1, 90, none, none⟩]).layout =
      [⟨0, 0, 1, 1, 90, none, none⟩] from rfl, List.mem_singleton] at hk
    subst hk
    exact goodKey_mk 0 0 1 1 90 twoDec_q0 twoDec_q0 twoDec_q1 twoDec_q1 twoDec_q90
  have henc : encodeKeyBinding ⟨0, 0, 1, 1, 90, none, none⟩ =
      ["&key_physical_attrs", "100", "100", "0", "0", "9000", "0", "0"] := by
    rw [show encodeKeyBinding ⟨0, 0, 1, 1, 90, none, none⟩ =
      ["&key_physical_attrs", num_to_str (100 * (1:ℚ)), num_to_str (100 * (1:ℚ)),
       num_to_str (100 * (0:ℚ)), num_to_str (100 * (0:ℚ)), num_to_str (100 * (90:ℚ)),
       num_to_str (100 * (0:ℚ)), num_to_str (100 * (0:ℚ))] from rfl,
      tok_enc_1, tok_enc_0, tok_enc_90]
  have hpbp : parse_binding_params ["100", "100", "0", "0", "9000", "0", "0"] =
      some ⟨some 1, some 1, some 0, some 0, some 90, some 0, some 0⟩ := by
    rw [parse_binding_params]
    simp only [parsePos_zero, parsePos_succ, parsePos_nil, pbn_tok_100, pbn_tok_0, pbn_tok_9000,
      Option.map_some', Option.some_bind]
    norm_num
  have hbk : binding_to_key (encodeKeyBinding ⟨0, 0, 1, 1, 90, none, none⟩) =
      some ⟨0, 0, 1, 1, 90, some 0, some 0⟩ := by
    rw [henc,
      show binding_to_key ["&key_physical_attrs", "100", "100", "0", "0", "9000", "0", "0"] =
        (if String.mk (lstripChars '&' ("&key_physical_attrs" : String).data) =
            "key_physical_attrs" then
          (parse_binding_params ["100", "100", "0", "0", "9000", "0", "0"]).bind paramsToKey
        else none) from rfl,
      if_pos (by decide : String.mk (lstripChars '&' ("&key_physical_attrs" : String).data) =
        "key_physical_attrs"), hpbp]
    rfl
  have hmo : mapOpt binding_to_key [encodeKeyBinding ⟨0, 0, 1, 1, 90, none, none⟩] =
      some [⟨0, 0, 1, 1, 90, some 0, some 0⟩] := by
    rw [mapOpt_singleton, hbk, Option.map_some']
  have hle : layoutEntry (some "A", some [encodeKeyBinding ⟨0, 0, 1, 1, 90, none, none⟩]) =
      some ("A", ⟨[⟨0, 0, 1, 1, 90, some 0, some 0⟩]⟩) := by
    rw [show layoutEntry (some "A", some [encodeKeyBinding ⟨0, 0, 1, 1, 90, none, none⟩]) =
        (mapOpt binding_to_key [encodeKeyBinding ⟨0, 0, 1, 1, 90, none, none⟩]).bind
          (fun keys => (normalize_layout ⟨keys⟩).map (fun l => ("A", l))) from rfl,
      hmo, Option.some_bind,
      normalize_layout_self ⟨[⟨0, 0, 1, 1, 90, some 0, some 0⟩]⟩
        ⟨0, 0, 1, 1, 90, some 0, some 0⟩ [] rfl rfl rfl, Option.map_some']
  have hdts : dts_to_layouts ⟨layouts_to_dts [("A", ⟨[⟨0, 0, 1, 1, 90, none, none⟩]⟩)], none⟩ =
      some [("A", ⟨[⟨0, 0, 1, 1, 90, some 0, some 0⟩]⟩)] := by
    rw [show layouts_to_dts [("A", ⟨[⟨0, 0, 1, 1, 90, none, none⟩]⟩)] =
      [⟨some "A", some [encodeKeyBinding ⟨0, 0, 1, 1, 90, none, none⟩]⟩] from rfl]
    rw [dts_to_layouts,
      if_pos (show ((DtsInput.mk [⟨some "A",
        some [encodeKeyBinding ⟨0, 0, 1, 1, 90, none, none⟩]⟩] none).nodes ≠ []) from by
          intro hc
          cases hc)]
    rw [show pyDictOf (((DtsInput.mk [⟨some "A",
        some [encodeKeyBinding ⟨0, 0, 1, 1, 90, none, none⟩]⟩] none).nodes).map
        (fun n => (n.display_name, n.keys))) =
      [(some "A", some [encodeKeyBinding ⟨0, 0, 1, 1, 90, none, none⟩])] from rfl]
    rw [Option.some_bind, mapOpt_singleton, hle, Option.map_some']
  have hnorm : normalizeSet [("A", ⟨[⟨0, 0, 1, 1, 90, none, none⟩]⟩)] =
      some [("A", ⟨[⟨0, 0, 1, 1, 90, none, none⟩]⟩)] := by
    rw [normalizeSet, mapOpt_singleton,
      normalize_layout_self ⟨[⟨0, 0, 1, 1, 90, none, none⟩]⟩
        ⟨0, 0, 1, 1, 90, none, none⟩ [] rfl rfl rfl, Option.map_some', Option.map_some']
  refine ⟨hgood, hdts, hnorm, ?_⟩
  rw [hdts, hnorm]
  intro hc
  simp at hc

/-- Claim C1 witness: the amended round trip at a one-entry set with a
single unrotated key. -/
theorem claim_C1_witness :
    (([("A", (⟨[⟨0, 0, 1, 1, 0, none, none⟩]⟩ : QmkLayout))].map Prod.fst).Nodup) ∧
    ([("A", (⟨[⟨0, 0, 1, 1, 0, none, none⟩]⟩ : QmkLayout))] ≠ []) ∧
    (qmk_json_to_layouts (layouts_to_json [("A", ⟨[⟨0, 0, 1, 1, 0, none, none⟩]⟩)]) =
        normalizeSet [("A", ⟨[⟨0, 0, 1, 1, 0, none, none⟩]⟩)] ∧
      dts_to_layouts ⟨layouts_to_dts [("A", ⟨[⟨0, 0, 1, 1, 0, none, none⟩]⟩)], none⟩ =
        normalizeSet [("A", ⟨[⟨0, 0, 1, 1, 0, none, none⟩]⟩)]) := by
  refine ⟨by simp, by simp, claim_C1_roundtrip_amended _ (by simp) (by simp) ?_⟩
  intro e he k hk
  rw [List.mem_singleton] at he
  subst he
  rw [show (("A", (⟨[⟨0, 0, 1, 1, 0, none, none⟩]⟩ : QmkLayout)) :
      String × QmkLayout).2.layout = [⟨0, 0, 1, 1, 0, none, none⟩] from rfl,
    List.mem_singleton] at hk
  subst hk
  exact ⟨goodKey_mk 0 0 1 1 0 twoDec_q0 twoDec_q0 twoDec_q1 twoDec_q1 twoDec_q0,
    presKey_mk_r0 0 0 1 1⟩

end ZmkConv
